import Mathlib

/-!
Verification development for the `incerto` Monte Carlo simulation crate.

The definitions below are a shallow embedding of the Rust sources:

* `src/plugins/spatial_grid.rs` — the `SpatialGrid` resource with its two
  internal maps (`position_to_entities`, `entity_to_position`), the
  `insert` / `remove` / `clear` operations and the neighbor queries.
  Hash maps and hash sets are modelled as association lists / lists; only
  lookup semantics matter, never iteration order.
* `src/util/aggregate.rs` — the `Minimum`, `Maximum`, `Mean`, `Median` and
  `Percentile` aggregators, including the exact IEEE-754 double rounding
  performed by the percentile index computation, the comparison behaviour
  of the `sealed::Ordered` wrapper, and the `BinaryHeap` sift mechanics
  through which `Median` / `Percentile` actually compare elements.
* `src/plugins/time_series.rs`, `src/plugins/step_counter.rs`,
  `src/simulation.rs`, `src/simulation_builder.rs` — the step counter,
  the aggregate and per-entity sampling systems, and the builder's
  time-series registration including its `assert!(sample_interval > 0)`.

Entities are modelled as naturals (Bevy `Entity` handles are opaque ids).
Rust functions that can panic are modelled with `Except Unit` (`.error ()`
is a panic) or, where the code has no panicking path, as total functions.
-/

set_option maxRecDepth 8000

namespace Incerto

/-- Decidable equality for `Except`, needed to evaluate the panic-modelling
aggregators on concrete inputs. -/
instance {e a : Type} [DecidableEq e] [DecidableEq a] : DecidableEq (Except e a) :=
  fun x y =>
    match x, y with
    | .error x1, .error y1 =>
      if h : x1 = y1 then .isTrue (by rw [h])
      else .isFalse (fun hh => by cases hh; exact h rfl)
    | .error _, .ok _ => .isFalse (fun hh => by cases hh)
    | .ok _, .error _ => .isFalse (fun hh => by cases hh)
    | .ok x1, .ok y1 =>
      if h : x1 = y1 then .isTrue (by rw [h])
      else .isFalse (fun hh => by cases hh; exact h rfl)

/-! ## Association lists (model of `HashMap` / `EntityHashMap`) -/

/-- Lookup of a key, model of `HashMap::get`. -/
def lookupA {κ ν : Type} [DecidableEq κ] (k : κ) : List (κ × ν) → Option ν
  | [] => none
  | (k', v) :: t => if k' = k then some v else lookupA k t

/-- Removal of a key, model of `HashMap::remove`. -/
def eraseA {κ ν : Type} [DecidableEq κ] (k : κ) : List (κ × ν) → List (κ × ν)
  | [] => []
  | (k', v) :: t => if k' = k then eraseA k t else (k', v) :: eraseA k t

/-- Insertion (or overwrite) of a key, model of `HashMap::insert` and of
in-place mutation through `get_mut` / `entry`. -/
def insertA {κ ν : Type} [DecidableEq κ] (k : κ) (v : ν) (l : List (κ × ν)) :
    List (κ × ν) :=
  (k, v) :: eraseA k l

/-- Model of `HashSet::insert`. -/
def setInsert (e : ℕ) (s : List ℕ) : List ℕ :=
  if e ∈ s then s else e :: s

/-- Model of `HashSet::remove`. -/
def setRemove (e : ℕ) : List ℕ → List ℕ
  | [] => []
  | x :: t => if x = e then setRemove e t else x :: setRemove e t

structure SpatialGrid (Pos B : Type) where
  position_to_entities : List (Pos × List ℕ)
  entity_to_position : List (ℕ × Pos)
  bounds : Option B

variable {Pos B : Type} [DecidableEq Pos]

/-- Model of `SpatialGrid::new`. -/
def SpatialGrid.new (bounds : Option B) : SpatialGrid Pos B :=
  ⟨[], [], bounds⟩

/-- Model of `SpatialGrid::remove`: drop the entity from the reverse map
first, then from the set at its recorded position, deleting the position
key whenever its set becomes empty. -/
def SpatialGrid.remove (g : SpatialGrid Pos B) (e : ℕ) : SpatialGrid Pos B :=
  match lookupA e g.entity_to_position with
  | none => g
  | some p =>
    let e2p := eraseA e g.entity_to_position
    match lookupA p g.position_to_entities with
    | none => { g with entity_to_position := e2p }
    | some s =>
      let s' := setRemove e s
      if s' = [] then
        { g with
          entity_to_position := e2p
          position_to_entities := eraseA p g.position_to_entities }
      else
        { g with
          entity_to_position := e2p
          position_to_entities := insertA p s' g.position_to_entities }

/-- Model of `SpatialGrid::insert`: remove the entity from its old position
(if any), then record it at the new one in both maps. -/
def SpatialGrid.insert (g : SpatialGrid Pos B) (e : ℕ) (p : Pos) : SpatialGrid Pos B :=
  let g1 := g.remove e
  let s := (lookupA p g1.position_to_entities).getD []
  { g1 with
    position_to_entities := insertA p (setInsert e s) g1.position_to_entities
    entity_to_position := insertA e p g1.entity_to_position }

/-- Model of `SpatialGrid::clear`. -/
def SpatialGrid.clear (g : SpatialGrid Pos B) : SpatialGrid Pos B :=
  { g with position_to_entities := [], entity_to_position := [] }

/-- Model of `SpatialGrid::entities_at`. -/
def SpatialGrid.entitiesAt (g : SpatialGrid Pos B) (p : Pos) : List ℕ :=
  (lookupA p g.position_to_entities).getD []

/-- Model of `SpatialGrid::position_of`. -/
def SpatialGrid.positionOf (g : SpatialGrid Pos B) (e : ℕ) : Option Pos :=
  lookupA e g.entity_to_position

/-- Mutual consistency of the two maps, as stated in the specification:
non-empty sets only, every member of a position's set maps back to that
position, and every recorded entity is a member of the set at its
position. -/
def SpatialGrid.Consistent (g : SpatialGrid Pos B) : Prop :=
  (∀ p s, lookupA p g.position_to_entities = some s →
      s ≠ [] ∧ ∀ e, e ∈ s → lookupA e g.entity_to_position = some p)
  ∧ (∀ e p, lookupA e g.entity_to_position = some p →
      ∃ s, lookupA p g.position_to_entities = some s ∧ e ∈ s)

inductive GridOp (Pos : Type) where
  | ins (e : ℕ) (p : Pos)
  | rem (e : ℕ)
  | clr

def SpatialGrid.applyOp (g : SpatialGrid Pos B) : GridOp Pos → SpatialGrid Pos B
  | .ins e p => g.insert e p
  | .rem e => g.remove e
  | .clr => g.clear

/-- Run a sequence of operations starting from a fresh grid. -/
def SpatialGrid.runOps (bounds : Option B) (ops : List (GridOp Pos)) :
    SpatialGrid Pos B :=
  ops.foldl SpatialGrid.applyOp (SpatialGrid.new bounds)

structure GridCoordinate (Pos Bnd : Type) where
  neighbors : Pos → List Pos
  neighborsOrthogonal : Pos → List Pos
  withinBounds : Pos → Bnd → Bool

abbrev IVec2 := ℤ × ℤ

abbrev IVec3 := ℤ × ℤ × ℤ

/-- Model of `IRect` as used by `Bounds2D`: `IRect::new` normalizes the two
given corners component-wise, and `contains` is inclusive on both ends. -/
structure Bounds2D where
  min : IVec2
  max : IVec2
deriving DecidableEq

/-- Model of `IRect::new(x0, y0, x1, y1)` (`from_corners` normalization). -/
def Bounds2D.mk4 (x0 y0 x1 y1 : ℤ) : Bounds2D :=
  ⟨(Min.min x0 x1, Min.min y0 y1), (Max.max x0 x1, Max.max y0 y1)⟩

/-- Model of `GridBounds::<IVec2>::new_2d(min_x, max_x, min_y, max_y)`,
which calls `IRect::new(min_x, min_y, max_x, max_y)`. -/
def Bounds2D.new2d (minX maxX minY maxY : ℤ) : Bounds2D :=
  Bounds2D.mk4 minX minY maxX maxY

/-- Model of the 3D bounds struct from `spatial_grid.rs`. -/
structure Bounds3D where
  min : IVec3
  max : IVec3
deriving DecidableEq

/-- The 2D instance of the trait: Moore and Von Neumann direction constants
in the order of the source arrays, and `IRect::contains`. -/
def ivec2Coord : GridCoordinate IVec2 Bounds2D where
  neighbors p :=
    [(-1, -1), (0, -1), (1, -1), (-1, 0), (1, 0), (-1, 1), (0, 1), (1, 1)].map
      (fun d => p + d)
  neighborsOrthogonal p :=
    [(0, -1), (-1, 0), (1, 0), (0, 1)].map (fun d => p + d)
  withinBounds p b :=
    decide (b.min.1 ≤ p.1) && decide (p.1 ≤ b.max.1) &&
    decide (b.min.2 ≤ p.2) && decide (p.2 ≤ b.max.2)

/-- The 3D instance: the triple loop over `(-1..=1)^3` skipping the center,
the six orthogonal direction constants, and the explicit six-comparison
`within_bounds`. -/
def ivec3Coord : GridCoordinate IVec3 Bounds3D where
  neighbors p :=
    (([-1, 0, 1] : List ℤ).flatMap (fun dx =>
      ([-1, 0, 1] : List ℤ).flatMap (fun dy =>
        ([-1, 0, 1] : List ℤ).filterMap (fun dz =>
          if dx = 0 ∧ dy = 0 ∧ dz = 0 then none
          else some (p + (dx, dy, dz))))))
  neighborsOrthogonal p :=
    [((-1 : ℤ), (0 : ℤ), (0 : ℤ)), (1, 0, 0), (0, -1, 0), (0, 1, 0),
      (0, 0, -1), (0, 0, 1)].map (fun d => p + d)
  withinBounds p b :=
    decide (b.min.1 ≤ p.1) && decide (p.1 ≤ b.max.1) &&
    decide (b.min.2.1 ≤ p.2.1) && decide (p.2.1 ≤ b.max.2.1) &&
    decide (b.min.2.2 ≤ p.2.2) && decide (p.2.2 ≤ b.max.2.2)

/-- A fresh 2D grid, `SpatialGrid::<IVec2>::new(bounds)`. -/
def newGrid2D (bounds : Option Bounds2D) : SpatialGrid IVec2 Bounds2D :=
  SpatialGrid.new bounds

variable {Bnd : Type}

/-- Model of `SpatialGrid::neighbors_of`: Moore neighbors, filtered by the
configured bounds when present (`is_none_or(contains)`), then union of the
entity sets at the surviving positions. -/
def SpatialGrid.neighborsOf (C : GridCoordinate Pos Bnd) (g : SpatialGrid Pos Bnd)
    (p : Pos) : List ℕ :=
  ((C.neighbors p).filter (fun q =>
      match g.bounds with
      | none => true
      | some b => C.withinBounds q b)).flatMap
    (fun q => (lookupA q g.position_to_entities).getD [])

/-- Model of `SpatialGrid::orthogonal_neighbors_of`. -/
def SpatialGrid.orthogonalNeighborsOf (C : GridCoordinate Pos Bnd)
    (g : SpatialGrid Pos Bnd) (p : Pos) : List ℕ :=
  ((C.neighborsOrthogonal p).filter (fun q =>
      match g.bounds with
      | none => true
      | some b => C.withinBounds q b)).flatMap
    (fun q => (lookupA q g.position_to_entities).getD [])


/-! ## IEEE-754 double rounding (the percentile index computation)

`Percentile::<O, P>::PERCENTAGE` is the `f64` constant `(P as f64) / 100.0`
and the index is `(PERCENTAGE * sorted.len() as f64).floor() as usize`.
Both operations round to nearest, ties to even; all values involved lie
well inside the normal range of `f64`, so the rounding is modelled exactly
on rationals `a / b` represented by numerator and denominator, with no
overflow or subnormal cases. Recursions carry explicit structural fuel so
that every function evaluates by kernel reduction. -/

/-- Floor of the base-2 logarithm of `n` (fuel-based, `n ≥ 1`). -/
def log2fuel : ℕ → ℕ → ℕ
  | 0, _ => 0
  | f+1, n => if n < 2 then 0 else log2fuel f (n / 2) + 1

def natLog2 (n : ℕ) : ℕ := log2fuel n n

/-- Smallest `k` with `b ≤ a * 2^k` (fuel-based, for `1 ≤ a < b`). -/
def scaleUpFuel : ℕ → ℕ → ℕ → ℕ
  | 0, _, _ => 0
  | f+1, a, b => if b ≤ a then 0 else scaleUpFuel f (2*a) b + 1

/-- Floor of the base-2 logarithm of the positive rational `a / b`. -/
def qlog2 (a b : ℕ) : ℤ :=
  if b ≤ a then (natLog2 (a / b) : ℤ) else -(scaleUpFuel b a b : ℤ)

/-- Round the rational `a / b` to the nearest integer, ties to even. -/
def rndNE (a b : ℕ) : ℕ :=
  let q := a / b
  let r := a % b
  if 2*r < b then q else if b < 2*r then q + 1 else if q % 2 = 0 then q else q + 1

/-- Round the non-negative rational `a / b` to the nearest `f64`
(round-to-nearest, ties-to-even), returned as a mantissa-exponent pair
`(m, e)` whose exact value is `m * 2^(e-52)`. -/
def fl64 (a b : ℕ) : ℕ × ℤ :=
  if a = 0 then (0, 0)
  else
    let e := qlog2 a b
    if e ≤ 52 then (rndNE (a * 2^((52 - e).toNat)) b, e)
    else (rndNE a (b * 2^((e - 52).toNat)), e)

/-- Floor of the `f64` value `m * 2^(e-52)` (the `.floor() as usize` cast). -/
def flFloor : ℕ × ℤ → ℕ
  | (m, e) => if 52 ≤ e then m * 2^((e - 52).toNat) else m / 2^((52 - e).toNat)

/-- The index selected by the percentile aggregator on `n` sorted samples:
`(((P as f64) / 100.0) * n as f64).floor() as usize`, with both the
division and the multiplication rounded as `f64` operations.
For `P ≤ 100` the first rounding has exponent at most `0`, so the product
`fl64(P/100) * n` is the exact rational `(m1 * n) / 2^(52 - e1)`. -/
def pctIdx (P n : ℕ) : ℕ :=
  let f1 := fl64 P 100
  flFloor (fl64 (f1.1 * n) (2^((52 - f1.2).toNat)))

/-! ## Order-statistic aggregators (`util/aggregate.rs`)

`Median` and `Percentile` collect the samples into a `BinaryHeap` ordered
by the `sealed::Ordered` wrapper and take `into_sorted_vec()`; on a slice
whose elements are totally ordered this is exactly the ascending sort of
the multiset of samples, which `sortedInt` models at the integer type.
`Minimum` and `Maximum` are plain folds over `partial_cmp`. The
aggregators are generic over the sample type `O`; they are instantiated
below at an integer sample type (where `partial_cmp` is a total order)
and at a floating-point sample type abstracted by `FVal` (where `NaN` is
incomparable with everything, including itself); for the float
instantiation the heap is modelled operation for operation, because its
behaviour on incomparable elements depends on the sift mechanics. -/

/-- Ascending sort (model of `BinaryHeap::into_sorted_vec` over totally
ordered elements). -/
def sortedInt (l : List ℤ) : List ℤ :=
  List.insertionSort (· ≤ ·) l

/-- Rust `partial_cmp` at an integer sample type. -/
def intPcmp (a b : ℤ) : Option Ordering :=
  if a < b then some .lt else if a = b then some .eq else some .gt

/-- The fold of `SampleAggregate<Option<Minimum<O>>>`: keep the current
accumulator unless `v.partial_cmp(&cur) == Some(Less)`; the `_` catch-all
keeps the accumulator for `Greater`, `Equal` and incomparable (`None`). -/
def minimumFold {α : Type} (pcmp : α → α → Option Ordering) (l : List α) : Option α :=
  l.foldl
    (fun acc v =>
      match acc with
      | none => some v
      | some cur =>
        match pcmp v cur with
        | some .lt => some v
        | _ => some cur)
    none

/-- The fold of `SampleAggregate<Option<Maximum<O>>>`. -/
def maximumFold {α : Type} (pcmp : α → α → Option Ordering) (l : List α) : Option α :=
  l.foldl
    (fun acc v =>
      match acc with
      | none => some v
      | some cur =>
        match pcmp v cur with
        | some .gt => some v
        | _ => some cur)
    none

/-- `Minimum` aggregation at an integer sample type. -/
def minimumAgg (l : List ℤ) : Option ℤ :=
  minimumFold intPcmp l

/-- `Maximum` aggregation at an integer sample type. -/
def maximumAgg (l : List ℤ) : Option ℤ :=
  maximumFold intPcmp l

/-- `Mean` aggregation at a signed-integer sample type: sum divided by
count with Rust's truncating integer division (`Int.tdiv`). Sums are taken
exactly (the claims under study do not involve overflow). -/
def meanAgg (l : List ℤ) : Option ℤ :=
  if l = [] then none
  else some (Int.tdiv l.sum l.length)

/-- `Median` aggregation at an integer sample type: empty check, ascending
sort, element at index `len / 2`. The index is always in range, so the
`sorted[len / 2]` indexing cannot panic and the model is total. -/
def medianAgg (l : List ℤ) : Option ℤ :=
  if l = [] then none
  else some ((sortedInt l).getD ((sortedInt l).length / 2) 0)

/-- `Percentile<P>` aggregation at an integer sample type: empty check,
ascending sort, element at the floating-point index `pctIdx`. When the
index is out of range the Rust indexing `sorted[idx]` panics, modelled by
`.error ()`. -/
def percentileAgg (P : ℕ) (l : List ℤ) : Except Unit (Option ℤ) :=
  if l = [] then .ok none
  else
    let sorted := sortedInt l
    let idx := pctIdx P sorted.length
    if h : idx < sorted.length then .ok (some (sorted.get ⟨idx, h⟩))
    else .error ()

/-- Floating-point sample values, abstracted to what comparison flow can
observe: `NaN` is incomparable with every value including itself, all
other values compare like a total order (finite doubles are totally
ordered; representing them by integers preserves every comparison). -/
inductive FVal where
  | nan
  | num (z : ℤ)
deriving DecidableEq

/-- Rust `partial_cmp` at a floating-point sample type. -/
def fvalPcmp : FVal → FVal → Option Ordering
  | .num a, .num b => intPcmp a b
  | _, _ => none

/-- `Minimum` aggregation at a floating-point sample type. The fold is
total: the `_` arm of the match treats an incomparable pair (`None` from
`partial_cmp`) like `Greater | Equal` and keeps the accumulator, so no
panic is possible. -/
def minimumAggF (l : List FVal) : Option FVal :=
  minimumFold fvalPcmp l

/-- `Maximum` aggregation at a floating-point sample type (total, like
`minimumAggF`). -/
def maximumAggF (l : List FVal) : Option FVal :=
  maximumFold fvalPcmp l

/-! ### The `BinaryHeap` path of `Median` / `Percentile` at a float type

`Median` and `Percentile` collect the `sealed::Ordered`-wrapped samples
into a `std::collections::BinaryHeap` and call `into_sorted_vec()`.
The heap's internal sift routines compare elements with the `<=`, `>=`
and `<` operators — that is, `PartialOrd::le`, `ge` and `lt`, whose
default bodies are derived from `Ordered`'s explicit `partial_cmp` — so
an incomparable pair (one side `NaN`) makes the comparison return
`false`; the panicking `Ord::cmp` of the wrapper is never called on this
path. The functions below model, operation for operation, the code that
runs: `FromIterator` collects into a `Vec` and calls `rebuild()`
(`sift_down` from position `len/2 - 1` down to `0`), and
`into_sorted_vec()` repeatedly swaps the root with the last element of
the shrinking prefix and sifts the new root down
(`sift_down_range(0, end)`). -/

/-- `PartialOrd::lt` of `sealed::Ordered`: `partial_cmp == Some(Less)`. -/
def pltF (a b : FVal) : Bool :=
  match fvalPcmp a b with
  | some Ordering.lt => true
  | _ => false

/-- `PartialOrd::le` of `sealed::Ordered`: `Some(Less | Equal)`; `false`
when the pair is incomparable. -/
def pleF (a b : FVal) : Bool :=
  match fvalPcmp a b with
  | some Ordering.lt => true
  | some Ordering.eq => true
  | _ => false

/-- `PartialOrd::ge` of `sealed::Ordered`: `Some(Greater | Equal)`;
`false` when the pair is incomparable. -/
def pgeF (a b : FVal) : Bool :=
  match fvalPcmp a b with
  | some Ordering.gt => true
  | some Ordering.eq => true
  | _ => false

/-- Read of a slot of the heap's backing vector. Every read performed by
the source is in range, so the default element is never produced. -/
def heapGet (data : List FVal) (i : ℕ) : FVal :=
  data.getD i .nan

/-- Swap of two slots of the backing vector (`self.data.swap(0, end)`). -/
def swapL (data : List FVal) (i j : ℕ) : List FVal :=
  (data.set i (heapGet data j)).set j (heapGet data i)

/-- The loop of `BinaryHeap::sift_down_range` with the hole at `hpos`
holding `elt` and range end `e`: while `child <= end.saturating_sub(2)`,
step to the greater child (`<=` comparison), stop early if the element is
`>=` that child, else move the hole down; after the loop, a final `<`
comparison against a last single child at `end - 1`. Dropping the hole
writes `elt` back at the hole position. The hole position at least
doubles per iteration, so `e` steps of fuel are never exhausted. -/
def siftDownLoop : ℕ → List FVal → FVal → ℕ → ℕ → List FVal
  | 0, data, elt, hpos, _ => data.set hpos elt
  | fuel + 1, data, elt, hpos, e =>
    let child := 2 * hpos + 1
    if child ≤ e - 2 then
      let child := child +
        (if pleF (heapGet data child) (heapGet data (child + 1)) then 1 else 0)
      if pgeF elt (heapGet data child) then data.set hpos elt
      else siftDownLoop fuel (data.set hpos (heapGet data child)) elt child e
    else if child = e - 1 then
      if pltF elt (heapGet data child) then
        (data.set hpos (heapGet data child)).set child elt
      else data.set hpos elt
    else data.set hpos elt

/-- `BinaryHeap::sift_down_range(pos, e)`. -/
def siftDownRange (data : List FVal) (pos e : ℕ) : List FVal :=
  siftDownLoop e data (heapGet data pos) pos e

/-- The loop of `BinaryHeap::rebuild`: `n` starts at `len / 2` and is
decremented before each `sift_down(n)`, so positions `len/2 - 1, …, 0`
are sifted over the full length. -/
def heapRebuildLoop : ℕ → List FVal → List FVal
  | 0, data => data
  | n + 1, data => heapRebuildLoop n (siftDownRange data n data.length)

/-- `BinaryHeap::rebuild`, run by `From<Vec<T>>` after `collect`. -/
def heapRebuild (data : List FVal) : List FVal :=
  heapRebuildLoop (data.length / 2) data

/-- The loop of `BinaryHeap::into_sorted_vec`: while `end > 1`, decrement
`end`, swap the root with slot `end`, and sift the root down over
`[0, end)`. -/
def intoSortedLoop : ℕ → List FVal → List FVal
  | e + 2, data => intoSortedLoop (e + 1) (siftDownRange (swapL data 0 (e + 1)) 0 (e + 1))
  | _, data => data

/-- `collect::<BinaryHeap<_>>()` followed by `into_sorted_vec()`: on
totally ordered elements this is the ascending sort (as `sortedInt`
models at the integer type), but with incomparable elements present the
false-returning comparisons leave `NaN`s wherever the sift mechanics put
them. -/
def heapSortF (l : List FVal) : List FVal :=
  intoSortedLoop (heapRebuild l).length (heapRebuild l)

/-- `Median` aggregation at a floating-point sample type: empty check,
the genuine `BinaryHeap` sort, element at index `len / 2`. The heap
mechanics never panic — incomparable comparisons simply return `false` —
and the index is always in range (sifts and swaps preserve length), so
the model is total: a slice containing `NaN` yields `Some` of whatever
element ends at the middle slot. -/
def medianAggF (l : List FVal) : Option FVal :=
  if l = [] then none
  else
    let sorted := heapSortF l
    some (sorted.getD (sorted.length / 2) .nan)

/-- `Percentile<P>` aggregation at a floating-point sample type: the same
`BinaryHeap` sort, indexed at `pctIdx`; as at the integer type, only an
out-of-range index (`P = 100`) panics (`.error ()`) — `NaN` does not. -/
def percentileAggF (P : ℕ) (l : List FVal) : Except Unit (Option FVal) :=
  if l = [] then .ok none
  else
    let sorted := heapSortF l
    let idx := pctIdx P sorted.length
    if h : idx < sorted.length then .ok (some (sorted.get ⟨idx, h⟩))
    else .error ()

/-! ### Exact model of `f64` addition and division (for the float `Mean`)

The `Mean` blanket implementation is also instantiated at `f32`/`f64`:
`iter.sum()` left-folds `+` from `0.0` and the result is divided by
`len as f64`. Each `f64` operation rounds to nearest, ties to even. A
finite double is represented below exactly as a dyadic rational
`z / 2^k`; every value arising in the statements is zero or normal and
far from overflow, and IEEE rounding is sign-symmetric, so rounding the
exact result of `+` or `/` with `fl64` on the absolute value models the
hardware operation exactly. (`-0.0` never arises: an exact-zero sum
rounds to `+0.0`.) -/

structure Dy where
  z : ℤ
  k : ℕ
deriving DecidableEq

/-- Repack a rounded mantissa–exponent pair as a dyadic rational. -/
def dyOfFl (m : ℤ) (e : ℤ) : Dy :=
  if 52 ≤ e then ⟨m * 2^((e - 52).toNat), 0⟩ else ⟨m, (52 - e).toNat⟩

/-- Round the exact rational `z / den` to the nearest `f64`. -/
def roundF64 (z : ℤ) (den : ℕ) : Dy :=
  let f := fl64 z.natAbs den
  dyOfFl (if z < 0 then -(f.1 : ℤ) else (f.1 : ℤ)) f.2

/-- IEEE `f64` addition of two exactly represented doubles. -/
def addF64 (a b : Dy) : Dy :=
  let k := Max.max a.k b.k
  roundF64 (a.z * 2^(k - a.k) + b.z * 2^(k - b.k)) (2^k)

/-- IEEE `f64` division of an exactly represented double by the exact
count `n as f64` (`n ≤ 2^53`). -/
def divF64 (a : Dy) (n : ℕ) : Dy :=
  roundF64 a.z (2^a.k * n)

/-- `Mean` aggregation at the `f64` sample type: `iter.sum()` (a left
fold of `f64` addition starting from `0.0`) divided by the count. -/
def meanAggF64 (l : List Dy) : Option Dy :=
  if l = [] then none
  else some (divF64 (l.foldl addF64 ⟨0, 0⟩) l.length)

/-- Value equality of two represented doubles. For the values arising
here (no `-0.0`, no `NaN`) equal value is the same as bit-identity. -/
def Dy.sameValue (a b : Dy) : Bool :=
  decide (a.z * 2^b.k = b.z * 2^a.k)

/-! ## Step counter and time series (`step_counter.rs`, `time_series.rs`,
`simulation.rs`, `simulation_builder.rs`)

`StepCounter` starts at 0 and is incremented in the `First` schedule of
every `app.update()`. `SimulationBuilder::new` performs one `app.update()`
before any time-series plugin can be registered, so when `Simulation::run`
begins the counter is 1 and every registered series is empty. During each
step of `run`, the counter is incremented first (`First`), user systems
run (`Update`), and the sampling systems run last (`PostUpdate`). -/

/-- Counter value and, for each sample appended so far to an aggregate
time series, the counter value at which it was appended. -/
structure AggSeriesState where
  counter : ℕ
  sampleTimes : List ℕ
deriving DecidableEq

/-- The state at the start of `Simulation::run` for a series registered
with `record_aggregate_time_series`: the builder's initialization update
has already incremented the counter once, and no samples exist. -/
def AggSeriesState.init : AggSeriesState := ⟨1, []⟩

/-- One `app.update()` as observed by an aggregate time series with sample
interval `s`: `step_counter_increment` runs in `First`, then
`AggregateTimeSeriesPlugin::time_series_sample` appends a sample in
`PostUpdate` iff `step_counter.is_multiple_of(sample_interval)`. -/
def aggStep (s : ℕ) (st : AggSeriesState) : AggSeriesState :=
  let c := st.counter + 1
  if c % s = 0 then ⟨c, st.sampleTimes ++ [c]⟩ else ⟨c, st.sampleTimes⟩

/-- `Simulation::run(n)`: `n` successive updates. -/
def aggRun (s : ℕ) : ℕ → AggSeriesState → AggSeriesState
  | 0, st => st
  | n+1, st => aggStep s (aggRun s n st)

/-- Counter value and recorded values of a per-entity time series for one
tracked entity (its `TimeSeries` component). -/
structure EntSeriesState where
  counter : ℕ
  values : List ℤ
deriving DecidableEq

/-- One `app.update()` as observed by a per-entity time series whose
tracked entity exists and currently samples to `v`:
`TimeSeriesPlugin::time_series_sample` pushes `C::sample(component)` for
every entity matched by its query, with no check of the step counter
against `sample_interval` (the interval is stored by the plugin but never
consulted when sampling). -/
def perEntityStep (_sampleInterval : ℕ) (v : ℤ) (st : EntSeriesState) : EntSeriesState :=
  ⟨st.counter + 1, st.values ++ [v]⟩

/-- Outcome of a builder registration call. -/
inductive RecordOutcome (Key : Type) where
  | panicked
  | conflict
  | ok (registered : List Key)
deriving DecidableEq

/-- Model of `SimulationBuilder::record_aggregate_time_series_filtered`:
`assert!(sample_interval > 0)` panics on a zero interval; otherwise a
second registration under the same `(C, F, O)` resource key returns
`Err(BuilderError::TimeSeriesRecordingConflict)`, and a fresh key is
registered and `Ok(self)` returned. -/
def recordAggregateTimeSeriesFiltered {Key : Type} [DecidableEq Key]
    (registered : List Key) (key : Key) (sampleInterval : ℕ) : RecordOutcome Key :=
  if sampleInterval = 0 then .panicked
  else if key ∈ registered then .conflict
  else .ok (key :: registered)

/-- Model of `SimulationBuilder::record_time_series` (same shape, keyed by
the `(C, I, O)` `SampleInterval` resource). -/
def recordTimeSeries {Key : Type} [DecidableEq Key]
    (registered : List Key) (key : Key) (sampleInterval : ℕ) : RecordOutcome Key :=
  if sampleInterval = 0 then .panicked
  else if key ∈ registered then .conflict
  else .ok (key :: registered)

/-! ## Theorems: library lemmas about the embedded definitions -/

theorem lookupA_eraseA_self {κ ν : Type} [DecidableEq κ] (k : κ) (l : List (κ × ν)) :
    lookupA k (eraseA k l) = none := by
  induction l with
  | nil => rfl
  | cons h t ih =>
    obtain ⟨k', v⟩ := h
    by_cases hk : k' = k
    · simp [eraseA, hk, ih]
    · simp [eraseA, lookupA, hk, ih]

theorem lookupA_eraseA_ne {κ ν : Type} [DecidableEq κ] {k k' : κ} (l : List (κ × ν))
    (h : k' ≠ k) : lookupA k' (eraseA k l) = lookupA k' l := by
  induction l with
  | nil => rfl
  | cons hd t ih =>
    obtain ⟨k'', v⟩ := hd
    by_cases hk : k'' = k
    · subst hk
      have hne : ¬ (k'' = k') := fun hh => h hh.symm
      simp [eraseA, lookupA, hne, ih]
    · by_cases hk2 : k'' = k'
      · subst hk2
        simp [eraseA, hk, lookupA]
      · simp [eraseA, hk, lookupA, hk2, ih]

theorem lookupA_insertA_self {κ ν : Type} [DecidableEq κ] (k : κ) (v : ν)
    (l : List (κ × ν)) : lookupA k (insertA k v l) = some v := by
  simp [insertA, lookupA]

theorem lookupA_insertA_ne {κ ν : Type} [DecidableEq κ] {k k' : κ} (v : ν)
    (l : List (κ × ν)) (h : k' ≠ k) :
    lookupA k' (insertA k v l) = lookupA k' l := by
  have : ¬ (k = k') := fun hh => h (hh ▸ rfl)
  simp [insertA, lookupA, this, lookupA_eraseA_ne l h]

/-! ## Entity sets (model of `HashSet<Entity>`) -/

theorem mem_setInsert {e x : ℕ} {s : List ℕ} :
    x ∈ setInsert e s ↔ x = e ∨ x ∈ s := by
  unfold setInsert
  by_cases h : e ∈ s
  · simp only [if_pos h]
    constructor
    · exact fun hx => Or.inr hx
    · rintro (rfl | hx)
      · exact h
      · exact hx
  · simp [if_neg h]

theorem mem_setRemove {e x : ℕ} {s : List ℕ} :
    x ∈ setRemove e s ↔ x ∈ s ∧ x ≠ e := by
  induction s with
  | nil => simp [setRemove]
  | cons hd t ih =>
    by_cases h : hd = e
    · subst h
      simp only [setRemove, if_pos rfl, ih, List.mem_cons]
      tauto
    · simp only [setRemove, if_neg h, List.mem_cons, ih]
      constructor
      · rintro (rfl | ⟨hm, hne⟩)
        · exact ⟨Or.inl rfl, h⟩
        · exact ⟨Or.inr hm, hne⟩
      · rintro ⟨rfl | hm, hne⟩
        · exact Or.inl rfl
        · exact Or.inr ⟨hm, hne⟩

/-! ## The spatial grid (`SpatialGrid<T>` from `spatial_grid.rs`)

The grid is generic over the coordinate type `Pos` and the bounds type `B`,
exactly as the Rust code is generic over `T : GridCoordinate` with its
associated `T::Bounds`. -/

theorem SpatialGrid.consistent_new (bounds : Option B) :
    (SpatialGrid.new bounds : SpatialGrid Pos B).Consistent := by
  constructor
  · intro p s h; cases h
  · intro e p h; cases h

theorem SpatialGrid.remove_e2p (g : SpatialGrid Pos B) (e : ℕ) :
    (g.remove e).entity_to_position = g.entity_to_position ∨
    (g.remove e).entity_to_position = eraseA e g.entity_to_position := by
  cases hl : lookupA e g.entity_to_position with
  | none => left; simp only [SpatialGrid.remove, hl]
  | some p =>
    right
    cases hp : lookupA p g.position_to_entities with
    | none => simp only [SpatialGrid.remove, hl, hp]
    | some s =>
      by_cases hs : setRemove e s = []
      · simp only [SpatialGrid.remove, hl, hp, if_pos hs]
      · simp only [SpatialGrid.remove, hl, hp, if_neg hs]

theorem SpatialGrid.positionOf_remove_self (g : SpatialGrid Pos B) (e : ℕ) :
    (g.remove e).positionOf e = none := by
  cases hl : lookupA e g.entity_to_position with
  | none => simp only [SpatialGrid.remove, SpatialGrid.positionOf, hl]
  | some p =>
    cases hp : lookupA p g.position_to_entities with
    | none =>
      simp only [SpatialGrid.remove, SpatialGrid.positionOf, hl, hp]
      exact lookupA_eraseA_self e g.entity_to_position
    | some s =>
      by_cases hs : setRemove e s = []
      · simp only [SpatialGrid.remove, SpatialGrid.positionOf, hl, hp, if_pos hs]
        exact lookupA_eraseA_self e g.entity_to_position
      · simp only [SpatialGrid.remove, SpatialGrid.positionOf, hl, hp, if_neg hs]
        exact lookupA_eraseA_self e g.entity_to_position

theorem SpatialGrid.consistent_remove {g : SpatialGrid Pos B} (hg : g.Consistent)
    (e : ℕ) : (g.remove e).Consistent := by
  obtain ⟨hfwd, hbwd⟩ := hg
  cases hl : lookupA e g.entity_to_position with
  | none =>
    have hre : g.remove e = g := by simp only [SpatialGrid.remove, hl]
    rw [hre]
    exact ⟨hfwd, hbwd⟩
  | some p =>
    cases hp : lookupA p g.position_to_entities with
    | none =>
      exfalso
      obtain ⟨s, hs, _⟩ := hbwd e p hl
      rw [hp] at hs; cases hs
    | some s =>
      by_cases hs' : setRemove e s = []
      · have h1 : (g.remove e).entity_to_position = eraseA e g.entity_to_position := by
          simp only [SpatialGrid.remove, hl, hp, if_pos hs']
        have h2 : (g.remove e).position_to_entities = eraseA p g.position_to_entities := by
          simp only [SpatialGrid.remove, hl, hp, if_pos hs']
        refine ⟨fun p2 s2 hp2 => ?_, fun e2 p2 he2 => ?_⟩
        · rw [h2] at hp2
          by_cases hpp : p2 = p
          · rw [hpp, lookupA_eraseA_self] at hp2; cases hp2
          · rw [lookupA_eraseA_ne _ hpp] at hp2
            obtain ⟨hne, hmem⟩ := hfwd p2 s2 hp2
            refine ⟨hne, fun e2 he2 => ?_⟩
            have horig := hmem e2 he2
            have hee : e2 ≠ e := by
              intro hh
              rw [hh, hl] at horig
              exact hpp (Option.some_injective _ horig).symm
            rw [h1, lookupA_eraseA_ne _ hee]
            exact horig
        · rw [h1] at he2
          by_cases hee : e2 = e
          · rw [hee, lookupA_eraseA_self] at he2; cases he2
          · rw [lookupA_eraseA_ne _ hee] at he2
            obtain ⟨s0, hs0, he0⟩ := hbwd e2 p2 he2
            by_cases hpp : p2 = p
            · exfalso
              rw [hpp, hp] at hs0
              have hss : s0 = s := (Option.some_injective _ hs0).symm
              have : e2 ∈ setRemove e s := mem_setRemove.mpr ⟨hss ▸ he0, hee⟩
              rw [hs'] at this
              cases this
            · exact ⟨s0, by rw [h2, lookupA_eraseA_ne _ hpp]; exact hs0, he0⟩
      · have h1 : (g.remove e).entity_to_position = eraseA e g.entity_to_position := by
          simp only [SpatialGrid.remove, hl, hp, if_neg hs']
        have h2 : (g.remove e).position_to_entities =
            insertA p (setRemove e s) g.position_to_entities := by
          simp only [SpatialGrid.remove, hl, hp, if_neg hs']
        refine ⟨fun p2 s2 hp2 => ?_, fun e2 p2 he2 => ?_⟩
        · rw [h2] at hp2
          by_cases hpp : p2 = p
          · rw [hpp, lookupA_insertA_self] at hp2
            have hss : setRemove e s = s2 := Option.some_injective _ hp2
            refine ⟨hss ▸ hs', fun e2 he2 => ?_⟩
            obtain ⟨hmem0, hee⟩ := mem_setRemove.mp (hss ▸ he2)
            have horig := (hfwd p s hp).2 e2 hmem0
            rw [h1, lookupA_eraseA_ne _ hee, hpp]
            exact horig
          · rw [lookupA_insertA_ne _ _ hpp] at hp2
            obtain ⟨hne, hmem⟩ := hfwd p2 s2 hp2
            refine ⟨hne, fun e2 he2 => ?_⟩
            have horig := hmem e2 he2
            have hee : e2 ≠ e := by
              intro hh
              rw [hh, hl] at horig
              exact hpp (Option.some_injective _ horig).symm
            rw [h1, lookupA_eraseA_ne _ hee]
            exact horig
        · rw [h1] at he2
          by_cases hee : e2 = e
          · rw [hee, lookupA_eraseA_self] at he2; cases he2
          · rw [lookupA_eraseA_ne _ hee] at he2
            obtain ⟨s0, hs0, he0⟩ := hbwd e2 p2 he2
            by_cases hpp : p2 = p
            · refine ⟨setRemove e s, by rw [h2, hpp]; exact lookupA_insertA_self _ _ _, ?_⟩
              rw [hpp, hp] at hs0
              have hss : s0 = s := (Option.some_injective _ hs0).symm
              exact mem_setRemove.mpr ⟨hss ▸ he0, hee⟩
            · exact ⟨s0, by rw [h2, lookupA_insertA_ne _ _ hpp]; exact hs0, he0⟩

theorem SpatialGrid.consistent_insert {g : SpatialGrid Pos B} (hg : g.Consistent)
    (e : ℕ) (p : Pos) : (g.insert e p).Consistent := by
  have hg1 : (g.remove e).Consistent := consistent_remove hg e
  have hnone : lookupA e (g.remove e).entity_to_position = none :=
    positionOf_remove_self g e
  obtain ⟨hfwd, hbwd⟩ := hg1
  have h1 : (g.insert e p).entity_to_position =
      insertA e p (g.remove e).entity_to_position := rfl
  have h2 : (g.insert e p).position_to_entities =
      insertA p (setInsert e ((lookupA p (g.remove e).position_to_entities).getD []))
        (g.remove e).position_to_entities := rfl
  refine ⟨fun p2 s2 hp2 => ?_, fun e2 p2 he2 => ?_⟩
  · rw [h2] at hp2
    by_cases hpp : p2 = p
    · rw [hpp, lookupA_insertA_self] at hp2
      have hss : setInsert e ((lookupA p (g.remove e).position_to_entities).getD []) = s2 :=
        Option.some_injective _ hp2
      constructor
      · intro hemp
        have hmem : e ∈ s2 := hss ▸ mem_setInsert.mpr (Or.inl rfl)
        rw [hemp] at hmem
        cases hmem
      · intro e2 he2
        rcases mem_setInsert.mp (hss ▸ he2) with rfl | hmem
        · rw [h1, hpp]
          exact lookupA_insertA_self _ _ _
        · cases hlp : lookupA p (g.remove e).position_to_entities with
          | none => rw [hlp] at hmem; cases hmem
          | some s0 =>
            rw [hlp] at hmem
            simp only [Option.getD_some] at hmem
            have horig := (hfwd p s0 hlp).2 e2 hmem
            have hee : e2 ≠ e := by
              intro hh
              rw [hh, hnone] at horig; cases horig
            rw [h1, lookupA_insertA_ne _ _ hee, hpp]
            exact horig
    · rw [lookupA_insertA_ne _ _ hpp] at hp2
      obtain ⟨hne, hmem⟩ := hfwd p2 s2 hp2
      refine ⟨hne, fun e2 he2 => ?_⟩
      have horig := hmem e2 he2
      have hee : e2 ≠ e := by
        intro hh
        rw [hh, hnone] at horig; cases horig
      rw [h1, lookupA_insertA_ne _ _ hee]
      exact horig
  · rw [h1] at he2
    by_cases hee : e2 = e
    · rw [hee, lookupA_insertA_self] at he2
      have hpe : p = p2 := Option.some_injective _ he2
      refine ⟨setInsert e ((lookupA p (g.remove e).position_to_entities).getD []),
        by rw [h2, ← hpe]; exact lookupA_insertA_self _ _ _, ?_⟩
      exact hee ▸ mem_setInsert.mpr (Or.inl rfl)
    · rw [lookupA_insertA_ne _ _ hee] at he2
      obtain ⟨s0, hs0, he0⟩ := hbwd e2 p2 he2
      by_cases hpp : p2 = p
      · refine ⟨setInsert e ((lookupA p (g.remove e).position_to_entities).getD []),
          by rw [h2, hpp]; exact lookupA_insertA_self _ _ _, ?_⟩
        rw [hpp] at hs0
        rw [hs0]
        simp only [Option.getD_some]
        exact mem_setInsert.mpr (Or.inr he0)
      · exact ⟨s0, by rw [h2, lookupA_insertA_ne _ _ hpp]; exact hs0, he0⟩

theorem SpatialGrid.consistent_clear (g : SpatialGrid Pos B) :
    g.clear.Consistent := by
  constructor
  · intro p s h; cases h
  · intro e p h; cases h

/-! Finite sequences of grid operations, for the invariant claim. -/

theorem SpatialGrid.consistent_applyOp {g : SpatialGrid Pos B} (hg : g.Consistent)
    (op : GridOp Pos) : (g.applyOp op).Consistent := by
  cases op with
  | ins e p => exact consistent_insert hg e p
  | rem e => exact consistent_remove hg e
  | clr => exact consistent_clear g

theorem SpatialGrid.consistent_foldl {g : SpatialGrid Pos B} (hg : g.Consistent)
    (ops : List (GridOp Pos)) : (ops.foldl SpatialGrid.applyOp g).Consistent := by
  induction ops generalizing g with
  | nil => exact hg
  | cons op t ih => exact ih (consistent_applyOp hg op)

/-! ## Coordinate systems (the `GridCoordinate` trait and its two instances)

The Rust trait is sealed with exactly the `IVec2` and `IVec3` instances;
we model it as a structure bundling the operations the neighbor queries
use, with one value per instance. -/

theorem flatMap_congr_of_mem {α β : Type} {l : List α} {f f' : α → List β}
    (h : ∀ a, a ∈ l → f a = f' a) : l.flatMap f = l.flatMap f' := by
  induction l with
  | nil => rfl
  | cons hd t ih =>
    simp only [List.flatMap_cons]
    rw [h hd (List.mem_cons_self hd t), ih (fun a ha => h a (List.mem_cons_of_mem hd ha))]

theorem SpatialGrid.neighborsOf_mem_inBounds {C : GridCoordinate Pos Bnd}
    {g : SpatialGrid Pos Bnd} {p : Pos} {b : Bnd} (hb : g.bounds = some b) {e : ℕ}
    (he : e ∈ g.neighborsOf C p) :
    ∃ q, C.withinBounds q b = true ∧ e ∈ g.entitiesAt q := by
  unfold SpatialGrid.neighborsOf at he
  rw [List.mem_flatMap] at he
  obtain ⟨q, hq, heq⟩ := he
  rw [List.mem_filter, hb] at hq
  exact ⟨q, hq.2, heq⟩

theorem SpatialGrid.orthogonalNeighborsOf_mem_inBounds {C : GridCoordinate Pos Bnd}
    {g : SpatialGrid Pos Bnd} {p : Pos} {b : Bnd} (hb : g.bounds = some b) {e : ℕ}
    (he : e ∈ g.orthogonalNeighborsOf C p) :
    ∃ q, C.withinBounds q b = true ∧ e ∈ g.entitiesAt q := by
  unfold SpatialGrid.orthogonalNeighborsOf at he
  rw [List.mem_flatMap] at he
  obtain ⟨q, hq, heq⟩ := he
  rw [List.mem_filter, hb] at hq
  exact ⟨q, hq.2, heq⟩

theorem SpatialGrid.neighborsOf_insert_outOfBounds {C : GridCoordinate Pos Bnd}
    {g : SpatialGrid Pos Bnd} {b : Bnd} (hb : g.bounds = some b) {q : Pos}
    (hq : C.withinBounds q b = false) (s : List ℕ) (p : Pos) :
    SpatialGrid.neighborsOf C
      { g with position_to_entities := insertA q s g.position_to_entities } p =
    SpatialGrid.neighborsOf C g p := by
  unfold SpatialGrid.neighborsOf
  apply flatMap_congr_of_mem
  intro a ha
  rw [List.mem_filter, hb] at ha
  have hw : C.withinBounds a b = true := ha.2
  have haq : a ≠ q := fun hh => by rw [hh, hq] at hw; cases hw
  rw [lookupA_insertA_ne _ _ haq]

theorem SpatialGrid.orthogonalNeighborsOf_insert_outOfBounds
    {C : GridCoordinate Pos Bnd} {g : SpatialGrid Pos Bnd} {b : Bnd}
    (hb : g.bounds = some b) {q : Pos} (hq : C.withinBounds q b = false)
    (s : List ℕ) (p : Pos) :
    SpatialGrid.orthogonalNeighborsOf C
      { g with position_to_entities := insertA q s g.position_to_entities } p =
    SpatialGrid.orthogonalNeighborsOf C g p := by
  unfold SpatialGrid.orthogonalNeighborsOf
  apply flatMap_congr_of_mem
  intro a ha
  rw [List.mem_filter, hb] at ha
  have hw : C.withinBounds a b = true := ha.2
  have haq : a ≠ q := fun hh => by rw [hh, hq] at hw; cases hw
  rw [lookupA_insertA_ne _ _ haq]


/-! ## Helper lemmas: sorting and permutation invariance -/

theorem length_sortedInt (l : List ℤ) : (sortedInt l).length = l.length := by
  unfold sortedInt
  exact List.length_insertionSort _ l

theorem sortedInt_perm (l : List ℤ) : (sortedInt l).Perm l :=
  List.perm_insertionSort _ l

theorem sortedInt_sorted (l : List ℤ) : (sortedInt l).Sorted (· ≤ ·) :=
  List.sorted_insertionSort _ l

theorem sortedInt_congr {l1 l2 : List ℤ} (hp : l1.Perm l2) :
    sortedInt l1 = sortedInt l2 := by
  refine List.eq_of_perm_of_sorted ?_ (sortedInt_sorted l1) (sortedInt_sorted l2)
  exact ((sortedInt_perm l1).trans hp).trans (sortedInt_perm l2).symm

theorem intPcmp_lt {v cur : ℤ} (h : v < cur) : intPcmp v cur = some .lt := by
  unfold intPcmp
  rw [if_pos h]

theorem intPcmp_eq (v : ℤ) : intPcmp v v = some .eq := by
  unfold intPcmp
  rw [if_neg (lt_irrefl v), if_pos rfl]

theorem intPcmp_gt {v cur : ℤ} (h : cur < v) : intPcmp v cur = some .gt := by
  unfold intPcmp
  rw [if_neg (by omega), if_neg (by omega)]

theorem minimumFold_int_eq (l : List ℤ) :
    minimumFold intPcmp l =
      l.foldl (fun acc v =>
        match acc with
        | none => some v
        | some cur => some (Min.min v cur)) none := by
  unfold minimumFold
  congr 1
  funext acc v
  cases acc with
  | none => rfl
  | some cur =>
    show (match intPcmp v cur with
      | some Ordering.lt => some v
      | _ => some cur) = some (Min.min v cur)
    rcases lt_trichotomy v cur with h | h | h
    · rw [intPcmp_lt h]
      show some v = some (Min.min v cur)
      rw [min_eq_left h.le]
    · subst h
      rw [intPcmp_eq]
      show some v = some (Min.min v v)
      rw [min_self]
    · rw [intPcmp_gt h]
      show some cur = some (Min.min v cur)
      rw [min_eq_right h.le]

theorem maximumFold_int_eq (l : List ℤ) :
    maximumFold intPcmp l =
      l.foldl (fun acc v =>
        match acc with
        | none => some v
        | some cur => some (Max.max v cur)) none := by
  unfold maximumFold
  congr 1
  funext acc v
  cases acc with
  | none => rfl
  | some cur =>
    show (match intPcmp v cur with
      | some Ordering.gt => some v
      | _ => some cur) = some (Max.max v cur)
    rcases lt_trichotomy v cur with h | h | h
    · rw [intPcmp_lt h]
      show some cur = some (Max.max v cur)
      rw [max_eq_right h.le]
    · subst h
      rw [intPcmp_eq]
      show some v = some (Max.max v v)
      rw [max_self]
    · rw [intPcmp_gt h]
      show some v = some (Max.max v cur)
      rw [max_eq_left h.le]

theorem minimumAgg_perm {l1 l2 : List ℤ} (hp : l1.Perm l2) :
    minimumAgg l1 = minimumAgg l2 := by
  unfold minimumAgg
  rw [minimumFold_int_eq, minimumFold_int_eq]
  haveI : RightCommutative (fun (acc : Option ℤ) v =>
      match acc with
      | none => some v
      | some cur => some (Min.min v cur)) := by
    constructor
    intro b a1 a2
    cases b with
    | none =>
      show some (Min.min a2 a1) = some (Min.min a1 a2)
      rw [min_comm]
    | some c =>
      show some (Min.min a2 (Min.min a1 c)) = some (Min.min a1 (Min.min a2 c))
      rw [min_left_comm]
  exact hp.foldl_eq none

theorem maximumAgg_perm {l1 l2 : List ℤ} (hp : l1.Perm l2) :
    maximumAgg l1 = maximumAgg l2 := by
  unfold maximumAgg
  rw [maximumFold_int_eq, maximumFold_int_eq]
  haveI : RightCommutative (fun (acc : Option ℤ) v =>
      match acc with
      | none => some v
      | some cur => some (Max.max v cur)) := by
    constructor
    intro b a1 a2
    cases b with
    | none =>
      show some (Max.max a2 a1) = some (Max.max a1 a2)
      rw [max_comm]
    | some c =>
      show some (Max.max a2 (Max.max a1 c)) = some (Max.max a1 (Max.max a2 c))
      rw [max_left_comm]
  exact hp.foldl_eq none

theorem foldl_isSome {α : Type} (f : Option α → α → Option α)
    (hf : ∀ c v, (f (some c) v).isSome = true) :
    ∀ (l : List α) (c : α), (l.foldl f (some c)).isSome = true := by
  intro l
  induction l with
  | nil => intro c; rfl
  | cons hd t ih =>
    intro c
    simp only [List.foldl_cons]
    obtain ⟨d, hd2⟩ := Option.isSome_iff_exists.mp (hf c hd)
    rw [hd2]
    exact ih d

theorem minimumFold_isSome {α : Type} (pcmp : α → α → Option Ordering)
    (l : List α) : (minimumFold pcmp l).isSome = !l.isEmpty := by
  cases l with
  | nil => rfl
  | cons hd t =>
    unfold minimumFold
    simp only [List.foldl_cons, List.isEmpty_cons, Bool.not_false]
    refine foldl_isSome _ (fun c v => ?_) t hd
    show (match pcmp v c with
      | some Ordering.lt => some v
      | _ => some c).isSome = true
    cases hp : pcmp v c with
    | none => rfl
    | some o => cases o <;> rfl

theorem maximumFold_isSome {α : Type} (pcmp : α → α → Option Ordering)
    (l : List α) : (maximumFold pcmp l).isSome = !l.isEmpty := by
  cases l with
  | nil => rfl
  | cons hd t =>
    unfold maximumFold
    simp only [List.foldl_cons, List.isEmpty_cons, Bool.not_false]
    refine foldl_isSome _ (fun c v => ?_) t hd
    show (match pcmp v c with
      | some Ordering.gt => some v
      | _ => some c).isSome = true
    cases hp : pcmp v c with
    | none => rfl
    | some o => cases o <;> rfl

/-! ## Helper lemmas: step counter and sampling cadence -/

theorem aggStep_counter (s : ℕ) (st : AggSeriesState) :
    (aggStep s st).counter = st.counter + 1 := by
  by_cases h : (st.counter + 1) % s = 0 <;> simp [aggStep, h]

theorem aggStep_times (s : ℕ) (st : AggSeriesState) :
    (aggStep s st).sampleTimes =
      if (st.counter + 1) % s = 0 then st.sampleTimes ++ [st.counter + 1]
      else st.sampleTimes := by
  by_cases h : (st.counter + 1) % s = 0 <;> simp [aggStep, h]

theorem aggRun_counter (s n : ℕ) (st : AggSeriesState) :
    (aggRun s n st).counter = st.counter + n := by
  induction n with
  | zero => rfl
  | succ n ih =>
    show (aggStep s (aggRun s n st)).counter = st.counter + (n + 1)
    rw [aggStep_counter, ih]
    omega

/-- Samples of an aggregate series over a run of `n` steps: with the
builder-initialized counter 1 and an interval `s ≥ 2`, the recorded sample
times are exactly the first `⌊(1+n)/s⌋` positive multiples of `s`. -/
theorem aggRun_sampleTimes (s : ℕ) (hs : 2 ≤ s) (n : ℕ) :
    (aggRun s n AggSeriesState.init).sampleTimes
      = (List.range ((1 + n) / s)).map (fun k => (k + 1) * s) := by
  induction n with
  | zero =>
    have h1 : (1 : ℕ) / s = 0 := Nat.div_eq_of_lt (by omega)
    rw [h1]
    rfl
  | succ n ih =>
    have hc : (aggRun s n AggSeriesState.init).counter = n + 1 := by
      rw [aggRun_counter]
      show 1 + n = n + 1
      omega
    show (aggStep s (aggRun s n AggSeriesState.init)).sampleTimes = _
    rw [aggStep_times, hc, ih]
    have hn2 : 1 + (n + 1) = n + 2 := by omega
    by_cases hd : s ∣ (n + 2)
    · have hmod : (n + 1 + 1) % s = 0 := Nat.dvd_iff_mod_eq_zero.mp hd
      have hdiv : (1 + (n + 1)) / s = (1 + n) / s + 1 := by
        rw [hn2, show n + 2 = (n + 1) + 1 by omega,
          Nat.succ_div_of_dvd (by rw [show (n + 1) + 1 = n + 2 by omega]; exact hd),
          show n + 1 = 1 + n by omega]
      rw [if_pos hmod, hdiv, List.range_succ, List.map_append, List.map_cons,
        List.map_nil]
      have hval : ((1 + n) / s + 1) * s = n + 2 := by
        have h2 : (1 + (n + 1)) / s * s = 1 + (n + 1) :=
          Nat.div_mul_cancel (by rw [hn2]; exact hd)
        rw [hdiv] at h2
        omega
      have : [(n + 1 + 1 : ℕ)] = [((1 + n) / s + 1) * s] := by
        rw [hval]
      rw [this]
    · have hmod : (n + 1 + 1) % s ≠ 0 := fun h =>
        hd (Nat.dvd_iff_mod_eq_zero.mpr h)
      have hdiv : (1 + (n + 1)) / s = (1 + n) / s := by
        rw [hn2, show n + 2 = (n + 1) + 1 by omega,
          Nat.succ_div_of_not_dvd (by rw [show (n + 1) + 1 = n + 2 by omega]; exact hd),
          show n + 1 = 1 + n by omega]
      rw [if_neg hmod, hdiv]

/-! ## Claim theorems -/

/-- C1: for every finite sequence of insert, remove and clear operations on
a `SpatialGrid` (generic over the coordinate type, so covering both the 2D
and the 3D instantiation), the two internal maps are mutually consistent:
every position key holds a non-empty entity set, every entity in the set at
`p` has recorded position `p`, every entity with recorded position `p` is
in the set at `p`, and no position key with an empty set persists. Every
prefix of an operation sequence is itself an operation sequence, so the
statement covers the state after each operation. -/
theorem C1_spatial_grid_maps_consistent {Pos B : Type} [DecidableEq Pos]
    (bounds : Option B) (ops : List (GridOp Pos)) :
    (SpatialGrid.runOps bounds ops).Consistent :=
  SpatialGrid.consistent_foldl (SpatialGrid.consistent_new bounds) ops

/-- C2 counterexample: on the 100 already-sorted values `0, …, 99`, the
claim's formula for `Percentile<29>` selects index `⌊(29/100) × 100⌋ = 29`,
whose value is `29`; the code computes the index in `f64` arithmetic
(`0.29 * 100.0` rounds to `28.999999999999996`) and returns the value at
index 28 instead. -/
theorem C2_percentile_formula_counterexample :
    percentileAgg 29 ((List.range 100).map (fun k => (k : ℤ)))
      = .ok (some 28) ∧
    (29 * 100) / 100 = 29 ∧
    (sortedInt ((List.range 100).map (fun k => (k : ℤ)))).getD 29 0 = 29 ∧
    (28 : ℤ) ≠ 29 := by
  refine ⟨by decide, by decide, by decide, by decide⟩

/-- C2 amended: `Median` returns `Some` of the value at index `⌊n/2⌋` of the
values sorted ascending for every non-empty slice; `Percentile<P>` returns
`Some` of the value at the index computed by the `f64` expression
`⌊fl(fl(P/100) · n)⌋` (`pctIdx`) whenever that index is in range — this
index usually but not always equals `⌊(P/100) × n⌋`, and at `P = 100` it
equals `n`, an out-of-range panic. The literal results for
`[1,3,…,19]` hold: `Percentile<10>` = 3, `Percentile<70>` = 15,
`Median` = 11. -/
theorem C2_median_percentile_formula (l : List ℤ) (hl : l ≠ []) (P : ℕ)
    (hP : pctIdx P l.length < l.length) :
    medianAgg l = some ((sortedInt l).getD (l.length / 2) 0) ∧
    percentileAgg P l = .ok (some ((sortedInt l).getD (pctIdx P l.length) 0)) ∧
    medianAgg [1, 3, 5, 7, 9, 11, 13, 15, 17, 19] = some 11 ∧
    percentileAgg 10 [1, 3, 5, 7, 9, 11, 13, 15, 17, 19] = .ok (some 3) ∧
    percentileAgg 70 [1, 3, 5, 7, 9, 11, 13, 15, 17, 19] = .ok (some 15) := by
  refine ⟨?_, ?_, by decide, by decide, by decide⟩
  · unfold medianAgg
    rw [if_neg hl, length_sortedInt]
  · unfold percentileAgg
    rw [if_neg hl]
    have hlen : (sortedInt l).length = l.length := length_sortedInt l
    have hP2 : pctIdx P (sortedInt l).length < (sortedInt l).length := by
      rw [hlen]; exact hP
    show (if h : pctIdx P (sortedInt l).length < (sortedInt l).length
        then Except.ok (some ((sortedInt l).get ⟨pctIdx P (sortedInt l).length, h⟩))
        else Except.error ()) = _
    rw [dif_pos hP2]
    have hgd : (sortedInt l).getD (pctIdx P l.length) 0
        = (sortedInt l).get ⟨pctIdx P (sortedInt l).length, hP2⟩ := by
      rw [List.getD_eq_getElem _ _ (by rw [hlen]; exact hP)]
      simp [List.get_eq_getElem, hlen]
    rw [hgd]

/-- C2 witness: the amended statement applied to the sorted ten-value slice
`[1,3,…,19]` with `P = 70`. -/
theorem C2_median_percentile_formula_witness :
    medianAgg [1, 3, 5, 7, 9, 11, 13, 15, 17, 19] = some 11 ∧
    percentileAgg 70 [1, 3, 5, 7, 9, 11, 13, 15, 17, 19] = .ok (some 15) := by
  have h := C2_median_percentile_formula [1, 3, 5, 7, 9, 11, 13, 15, 17, 19]
    (by decide) 70 (by decide)
  refine ⟨?_, ?_⟩
  · rw [h.1]; decide
  · rw [h.2.1]; decide

/-- C3: the per-entity sampling system appends a value on every step of the
run (its query has no step-counter guard), so with `sample_interval = 2`,
after the second update of a run the step counter is 3 — not a multiple of
2 — yet the per-entity series has just received its second value; on the
same step the aggregate sampling system, which does check the counter,
appends nothing. -/
theorem C3_per_entity_sampling_ignores_interval :
    (perEntityStep 2 6 (perEntityStep 2 5 ⟨1, []⟩)).counter = 3 ∧
    (perEntityStep 2 6 (perEntityStep 2 5 ⟨1, []⟩)).values = [5, 6] ∧
    3 % 2 ≠ 0 ∧
    (aggStep 2 ⟨2, []⟩).counter = 3 ∧
    (aggStep 2 ⟨2, []⟩).sampleTimes = [] := by
  refine ⟨by decide, by decide, by decide, by decide, by decide⟩

/-- C4 (code bug relative to the crate's own documentation: the doc
comment on `Median` in `aggregate.rs` promises that "computing float
medians will panic if any of the samples being aggregated are not
comparable (e.g `NaN`)", and the spec calls the panic a deliberate
fail-fast policy): no floating-point aggregator panics on a slice that
contains `NaN` together with another value. `BinaryHeap`'s `rebuild` and
`into_sorted_vec` compare elements with the `<=` / `>=` / `<` operators —
`PartialOrd::le`/`ge`/`lt`, which return `false` on an incomparable
pair — so the panicking `Ordered::cmp` is never reached and
`Median([NaN, 1.0])` silently returns `Some(NaN)`; `Percentile<50>`
likewise; and the `Minimum`/`Maximum` folds silently keep the
accumulator on an incomparable comparison, with order-dependent
results. -/
theorem C4_nan_never_panics :
    medianAggF [FVal.nan, FVal.num 1] = some FVal.nan ∧
    percentileAggF 50 [FVal.nan, FVal.num 1] = .ok (some FVal.nan) ∧
    minimumAggF [FVal.nan, FVal.num 1] = some FVal.nan ∧
    maximumAggF [FVal.nan, FVal.num 1] = some FVal.nan ∧
    minimumAggF [FVal.num 1, FVal.nan] = some (FVal.num 1) := by
  refine ⟨by decide, by decide, by decide, by decide, by decide⟩

/-- C5 counterexample: a zero sample interval does not produce a returned
error value — `assert!(sample_interval > 0)` fires first and the builder
panics, in both registration methods (and their own doc comments say so). -/
theorem C5_zero_interval_panics :
    recordAggregateTimeSeriesFiltered ([] : List ℕ) 0 0 = .panicked ∧
    recordTimeSeries ([] : List ℕ) 0 0 = .panicked := by
  refine ⟨by decide, by decide⟩

/-- C5 amended: with a positive sample interval, duplicate registration of
an identical tracking triple is reported as the explicit returned error
`BuilderError::TimeSeriesRecordingConflict` and never panics, for both
registration methods; a zero sample interval, by contrast, panics via the
`assert!` rather than returning an error. -/
theorem C5_duplicate_registration_is_error {Key : Type} [DecidableEq Key]
    (registered : List Key) (key : Key) (s : ℕ) (hs : s ≠ 0) :
    (recordAggregateTimeSeriesFiltered registered key s = .conflict ↔
      key ∈ registered) ∧
    recordAggregateTimeSeriesFiltered registered key s ≠ .panicked ∧
    (recordTimeSeries registered key s = .conflict ↔ key ∈ registered) ∧
    recordTimeSeries registered key s ≠ .panicked ∧
    recordAggregateTimeSeriesFiltered registered key 0 = .panicked ∧
    recordTimeSeries registered key 0 = .panicked := by
  refine ⟨?_, ?_, ?_, ?_, by simp [recordAggregateTimeSeriesFiltered],
    by simp [recordTimeSeries]⟩
  · by_cases hk : key ∈ registered <;>
      simp [recordAggregateTimeSeriesFiltered, hs, hk]
  · by_cases hk : key ∈ registered <;>
      simp [recordAggregateTimeSeriesFiltered, hs, hk]
  · by_cases hk : key ∈ registered <;> simp [recordTimeSeries, hs, hk]
  · by_cases hk : key ∈ registered <;> simp [recordTimeSeries, hs, hk]

/-- C5 witness: the amended statement applied to a one-key registry with a
duplicate key and interval 3. -/
theorem C5_duplicate_registration_is_error_witness :
    (recordAggregateTimeSeriesFiltered [(0 : ℕ)] 0 3 = .conflict ↔
      (0 : ℕ) ∈ [(0 : ℕ)]) ∧
    recordAggregateTimeSeriesFiltered [(0 : ℕ)] 0 3 ≠ .panicked ∧
    (recordTimeSeries [(0 : ℕ)] 0 3 = .conflict ↔ (0 : ℕ) ∈ [(0 : ℕ)]) ∧
    recordTimeSeries [(0 : ℕ)] 0 3 ≠ .panicked ∧
    recordAggregateTimeSeriesFiltered [(0 : ℕ)] 0 0 = .panicked ∧
    recordTimeSeries [(0 : ℕ)] 0 0 = .panicked :=
  C5_duplicate_registration_is_error [(0 : ℕ)] 0 3 (by decide)

/-- C6: with `sample_interval = 10`, starting from the builder-initialized
state, running 100 steps records exactly 10 values, running 10 further
steps records exactly 1 more (11 total), and every single step appends at
most one sample and never removes any. -/
theorem C6_cadence_100_steps_10_samples :
    (aggRun 10 100 AggSeriesState.init).sampleTimes.length = 10 ∧
    (aggRun 10 10 (aggRun 10 100 AggSeriesState.init)).sampleTimes.length = 11 ∧
    (∀ (s : ℕ) (st : AggSeriesState),
      (aggStep s st).sampleTimes.length ≤ st.sampleTimes.length + 1 ∧
      st.sampleTimes.length ≤ (aggStep s st).sampleTimes.length) := by
  refine ⟨by decide, by decide, fun s st => ?_⟩
  rw [aggStep_times]
  split <;> simp [List.length_append]

/-- C7 counterexample: with `sample_interval = 10`, entry 0 of the recorded
aggregate series is appended when the step counter reaches 10; after 0
steps (step 0) nothing at all has been recorded, so entry 0 is not "the
sample taken at step 0" and entry `k` does not correspond to step
`k × 10`. -/
theorem C7_entry_zero_not_at_step_zero :
    (aggRun 10 100 AggSeriesState.init).sampleTimes.getD 0 0 = 10 ∧
    (aggRun 10 0 AggSeriesState.init).sampleTimes = [] ∧
    (10 : ℕ) ≠ 0 := by
  refine ⟨by decide, by decide, by decide⟩

/-- C7 amended: for a population-wide aggregate series with sample interval
`s ≥ 2`, entry `k` (0-indexed) is recorded at the step at which the
monotonically increasing step counter equals `(k + 1) × s` — the first
entry is taken when the counter reaches `s`, not at step 0. (For `s = 1`
the builder's initialization update shifts the tags to `k + 2`.) -/
theorem C7_entry_k_at_counter_succ_k_mul_s (s : ℕ) (hs : 2 ≤ s) (n k : ℕ)
    (hk : k < (aggRun s n AggSeriesState.init).sampleTimes.length) :
    (aggRun s n AggSeriesState.init).sampleTimes.getD k 0 = (k + 1) * s := by
  rw [aggRun_sampleTimes s hs n] at hk ⊢
  rw [List.getD_eq_getElem _ _ hk]
  simp [List.getElem_map, List.getElem_range]

/-- C7 witness: entry 3 of the series recorded with interval 10 over 100
steps carries counter value 40. -/
theorem C7_entry_k_at_counter_succ_k_mul_s_witness :
    (aggRun 10 100 AggSeriesState.init).sampleTimes.getD 3 0 = (3 + 1) * 10 :=
  C7_entry_k_at_counter_succ_k_mul_s 10 (by decide) 100 3 (by decide)

/-- C8 (code bug relative to the crate's own documentation, which promises
"a panic will be raised if an entity has a GridPosition outside the
bounds"): neither `SpatialGrid::insert` nor `spatial_grid_update_system`
checks the configured bounds, so inserting entity 0 at `(10, 10)` into an
empty grid bounded by `[0,4] × [0,4]` silently indexes it there — the
entity is recorded in both maps and no panic occurs (the operation is a
total function). -/
theorem C8_out_of_bounds_insert_silently_indexed :
    ((newGrid2D (some (Bounds2D.new2d 0 4 0 4))).insert 0
        ((10 : ℤ), (10 : ℤ))).positionOf 0 = some (10, 10) ∧
    0 ∈ ((newGrid2D (some (Bounds2D.new2d 0 4 0 4))).insert 0
        ((10 : ℤ), (10 : ℤ))).entitiesAt (10, 10) ∧
    ivec2Coord.withinBounds ((10 : ℤ), (10 : ℤ)) (Bounds2D.new2d 0 4 0 4) = false := by
  refine ⟨by decide, by decide, by decide⟩

/-- C9 counterexample: floating-point aggregation is not
permutation-invariant. With a `NaN` among the values, `Minimum` over the
two orders of the multiset `{NaN, 1.0}` returns `NaN` and `1.0`
respectively (the fold keeps the accumulator whenever `partial_cmp`
returns `None`); and even without `NaN`, `Mean` is order-dependent
because every `f64` addition rounds: over the multiset
`{2^100, 1.0, -2^100, 0.0}`, summing in one order gives `0.0` (adding
`1.0` to `2^100` rounds back to `2^100`) and in another gives `1.0`, so
the means `0.0` and `0.25` differ in value — hence not bit-identically.
-/
theorem C9_float_aggregation_order_dependent :
    ([FVal.nan, FVal.num 1] : List FVal).Perm [FVal.num 1, FVal.nan] ∧
    minimumAggF [FVal.nan, FVal.num 1] = some FVal.nan ∧
    minimumAggF [FVal.num 1, FVal.nan] = some (FVal.num 1) ∧
    FVal.nan ≠ FVal.num 1 ∧
    ([Dy.mk (2^100) 0, Dy.mk 1 0, Dy.mk (-(2^100)) 0, Dy.mk 0 0] : List Dy).Perm
      [Dy.mk (2^100) 0, Dy.mk (-(2^100)) 0, Dy.mk 1 0, Dy.mk 0 0] ∧
    (meanAggF64 [Dy.mk (2^100) 0, Dy.mk 1 0, Dy.mk (-(2^100)) 0, Dy.mk 0 0]).isSome
      = true ∧
    (meanAggF64 [Dy.mk (2^100) 0, Dy.mk (-(2^100)) 0, Dy.mk 1 0, Dy.mk 0 0]).isSome
      = true ∧
    Dy.sameValue
      ((meanAggF64 [Dy.mk (2^100) 0, Dy.mk 1 0, Dy.mk (-(2^100)) 0, Dy.mk 0 0]).getD
        ⟨0, 0⟩)
      ((meanAggF64 [Dy.mk (2^100) 0, Dy.mk (-(2^100)) 0, Dy.mk 1 0, Dy.mk 0 0]).getD
        ⟨0, 0⟩) = false := by
  refine ⟨by decide, by decide, by decide, by decide, by decide, by decide, by decide,
    by decide⟩

/-- C9 amended: over samples of an integer type — totally ordered
comparisons and exact, commutative addition, modelled by `ℤ` —
`Minimum`, `Maximum`, `Mean`, `Median` and `Percentile<P>` are invariant
under every permutation of the input slice. (Floating-point is excluded:
the counterexample shows `Minimum` order-dependent under `NaN` and
`Mean` order-dependent even on `NaN`-free values.) -/
theorem C9_permutation_invariance_total_order (P : ℕ) (l1 l2 : List ℤ)
    (hp : l1.Perm l2) :
    minimumAgg l1 = minimumAgg l2 ∧
    maximumAgg l1 = maximumAgg l2 ∧
    meanAgg l1 = meanAgg l2 ∧
    medianAgg l1 = medianAgg l2 ∧
    percentileAgg P l1 = percentileAgg P l2 := by
  have hlen := hp.length_eq
  have hnil : (l1 = []) ↔ (l2 = []) := by
    constructor <;> intro h
    · have h0 : l2.length = 0 := by rw [← hlen, h]; rfl
      exact List.length_eq_zero.mp h0
    · have h0 : l1.length = 0 := by rw [hlen, h]; rfl
      exact List.length_eq_zero.mp h0
  refine ⟨minimumAgg_perm hp, maximumAgg_perm hp, ?_, ?_, ?_⟩
  · unfold meanAgg
    by_cases h : l1 = []
    · rw [if_pos h, if_pos (hnil.mp h)]
    · rw [if_neg h, if_neg (fun hh => h (hnil.mpr hh)), hp.sum_eq, hlen]
  · unfold medianAgg
    by_cases h : l1 = []
    · rw [if_pos h, if_pos (hnil.mp h)]
    · rw [if_neg h, if_neg (fun hh => h (hnil.mpr hh)), sortedInt_congr hp]
  · unfold percentileAgg
    by_cases h : l1 = []
    · rw [if_pos h, if_pos (hnil.mp h)]
    · rw [if_neg h, if_neg (fun hh => h (hnil.mpr hh)), sortedInt_congr hp]

/-- C9 witness: the amended statement applied to the two orders of the
multiset `{1, 2}` with `P = 10`. -/
theorem C9_permutation_invariance_total_order_witness :
    minimumAgg [1, 2] = minimumAgg [2, 1] ∧
    maximumAgg [1, 2] = maximumAgg [2, 1] ∧
    meanAgg [1, 2] = meanAgg [2, 1] ∧
    medianAgg [1, 2] = medianAgg [2, 1] ∧
    percentileAgg 10 [1, 2] = percentileAgg 10 [2, 1] :=
  C9_permutation_invariance_total_order 10 [1, 2] [2, 1] (by decide)

/-- C10: on a grid with configured bounds, every entity returned by
`neighbors_of` / `orthogonal_neighbors_of` is found at an in-bounds
position, and entries of the raw position map at an out-of-bounds position
contribute nothing: adding such an entry leaves both query results
unchanged (and both queries are total functions — an out-of-bounds
neighbor position is filtered, not an error). -/
theorem C10_neighbor_queries_filter_bounds {Pos Bnd : Type} [DecidableEq Pos]
    (C : GridCoordinate Pos Bnd) (g : SpatialGrid Pos Bnd) (p : Pos) (b : Bnd)
    (hb : g.bounds = some b) (e : ℕ) (q : Pos) (s : List ℕ)
    (hq : C.withinBounds q b = false) :
    (e ∈ g.neighborsOf C p →
      ∃ q2, C.withinBounds q2 b = true ∧ e ∈ g.entitiesAt q2) ∧
    (e ∈ g.orthogonalNeighborsOf C p →
      ∃ q2, C.withinBounds q2 b = true ∧ e ∈ g.entitiesAt q2) ∧
    SpatialGrid.neighborsOf C
        { g with position_to_entities := insertA q s g.position_to_entities } p
      = g.neighborsOf C p ∧
    SpatialGrid.orthogonalNeighborsOf C
        { g with position_to_entities := insertA q s g.position_to_entities } p
      = g.orthogonalNeighborsOf C p :=
  ⟨fun he => SpatialGrid.neighborsOf_mem_inBounds hb he,
   fun he => SpatialGrid.orthogonalNeighborsOf_mem_inBounds hb he,
   SpatialGrid.neighborsOf_insert_outOfBounds hb hq s p,
   SpatialGrid.orthogonalNeighborsOf_insert_outOfBounds hb hq s p⟩

/-- C10 witness: a 2D grid bounded by `[0,4] × [0,4]` holding entity 5 at
`(3,3)`, queried at `(4,4)`, with an out-of-bounds raw entry `[7]` at
`(5,5)` — a Moore neighbor of the query position. -/
theorem C10_neighbor_queries_filter_bounds_witness :
    (5 ∈ ((newGrid2D (some (Bounds2D.new2d 0 4 0 4))).insert 5
          ((3 : ℤ), (3 : ℤ))).neighborsOf ivec2Coord ((4 : ℤ), (4 : ℤ)) →
      ∃ q2, ivec2Coord.withinBounds q2 (Bounds2D.new2d 0 4 0 4) = true ∧
        5 ∈ ((newGrid2D (some (Bounds2D.new2d 0 4 0 4))).insert 5
          ((3 : ℤ), (3 : ℤ))).entitiesAt q2) ∧
    (5 ∈ ((newGrid2D (some (Bounds2D.new2d 0 4 0 4))).insert 5
          ((3 : ℤ), (3 : ℤ))).orthogonalNeighborsOf ivec2Coord ((4 : ℤ), (4 : ℤ)) →
      ∃ q2, ivec2Coord.withinBounds q2 (Bounds2D.new2d 0 4 0 4) = true ∧
        5 ∈ ((newGrid2D (some (Bounds2D.new2d 0 4 0 4))).insert 5
          ((3 : ℤ), (3 : ℤ))).entitiesAt q2) ∧
    SpatialGrid.neighborsOf ivec2Coord
        { (newGrid2D (some (Bounds2D.new2d 0 4 0 4))).insert 5
            ((3 : ℤ), (3 : ℤ)) with
          position_to_entities := insertA ((5 : ℤ), (5 : ℤ)) [7]
            ((newGrid2D (some (Bounds2D.new2d 0 4 0 4))).insert 5
              ((3 : ℤ), (3 : ℤ))).position_to_entities } ((4 : ℤ), (4 : ℤ))
      = ((newGrid2D (some (Bounds2D.new2d 0 4 0 4))).insert 5
          ((3 : ℤ), (3 : ℤ))).neighborsOf ivec2Coord ((4 : ℤ), (4 : ℤ)) ∧
    SpatialGrid.orthogonalNeighborsOf ivec2Coord
        { (newGrid2D (some (Bounds2D.new2d 0 4 0 4))).insert 5
            ((3 : ℤ), (3 : ℤ)) with
          position_to_entities := insertA ((5 : ℤ), (5 : ℤ)) [7]
            ((newGrid2D (some (Bounds2D.new2d 0 4 0 4))).insert 5
              ((3 : ℤ), (3 : ℤ))).position_to_entities } ((4 : ℤ), (4 : ℤ))
      = ((newGrid2D (some (Bounds2D.new2d 0 4 0 4))).insert 5
          ((3 : ℤ), (3 : ℤ))).orthogonalNeighborsOf ivec2Coord ((4 : ℤ), (4 : ℤ)) :=
  C10_neighbor_queries_filter_bounds ivec2Coord
    ((newGrid2D (some (Bounds2D.new2d 0 4 0 4))).insert 5
      ((3 : ℤ), (3 : ℤ))) ((4 : ℤ), (4 : ℤ)) (Bounds2D.new2d 0 4 0 4) rfl 5
    ((5 : ℤ), (5 : ℤ)) [7] (by decide)

end Incerto
